import Mathlib

/-!
# Verification of the T4LResearch similarity / grouping / merge core

Shallow embedding of the algorithmic core of the repository:

* `match_article_with_topics` (src/topicManagement/topic_matcher.py) — keyword
  scoring plus LLM-confirmation boost and best-match selection;
* `cosine_similarity` (src/createArticles/dataPrep/similarity.py and
  src/createArticles/review/similarity.py — both compute
  `dot / (sqrt (Σ a²) · sqrt (Σ b²))` with a zero-norm guard);
* `group_similar_articles` (src/createArticles/dataPrep/article_grouping.py);
* the per-item duplicate-candidate selection and the merge/update logic of
  `check_similarity_and_update` (src/createArticles/review/similarity.py).

Python dict records are modelled as structures; a key read with
`d.get(k, "")` is modelled as a `String` field where `""` stands for an
absent value (Python truthiness of `""` is falsity, matching the source's
guards); `d.get("embedding", [])` is a `List ℝ` field where `[]` stands for
a missing embedding.  External collaborators (the LLM confirmation call, the
content-regeneration call, the database write) are passed in as explicit
arguments, exactly at the call sites where the source invokes them.
-/

/-! ## String helpers: Python's `needle in hay` and `str.lower()` -/

/-- Python's substring test `needle in hay`, on character lists:
true iff `needle` occurs as a contiguous sublist of `hay`
(the empty needle occurs in everything). -/
def hasSubList (needle : List Char) : List Char → Bool
  | [] => needle.isEmpty
  | c :: rest => needle.isPrefixOf (c :: rest) || hasSubList needle rest

/-- Python's `needle in hay` on strings. -/
def strHasSub (hay needle : String) : Bool :=
  hasSubList needle.data hay.data

/-- Python's `str.lower()` (ASCII case folding, `Char.toLower` per character). -/
def strToLower (s : String) : String :=
  ⟨s.data.map Char.toLower⟩

/-! ## TopicKeywordMatcher (src/topicManagement/topic_matcher.py) -/

/-- A row of the `Topics` table, as read by `match_article_with_topics`:
`topic.get("TopicName", "")`, `topic.get("Keywords", [])`,
`topic.get("Description", "")`. -/
structure Topic where
  id : ℤ
  topicName : String
  keywords : List String
  description : String
deriving DecidableEq, Repr

/-- `keyword_lower in full_content.lower()` for one keyword:
case-insensitive substring occurrence. -/
def keywordHit (fullContent : String) (kw : String) : Bool :=
  strHasSub (strToLower fullContent) (strToLower kw)

/-- The `keyword_count` loop of `match_article_with_topics`: the number of
keywords of the topic occurring (case-insensitively) in the text. -/
def keywordCount (fullContent : String) (keywords : List String) : ℕ :=
  (keywords.filter (keywordHit fullContent)).length

/-- `score = keyword_count / len(topic_keywords) if topic_keywords else 0`. -/
def keywordScore (fullContent : String) (t : Topic) : ℚ :=
  if t.keywords = [] then 0
  else (keywordCount fullContent t.keywords : ℚ) / (t.keywords.length : ℚ)

/-- The per-topic score after the optional LLM stage of
`match_article_with_topics`: when the keyword score reaches `0.3` the LLM
collaborator `confirm` (embedding `_confirm_match_with_llm`) is consulted and
a `true` answer adds `0.3` to the score. -/
def topicScore (confirm : Topic → Bool) (fullContent : String) (t : Topic) : ℚ :=
  let base := keywordScore fullContent t
  if 3/10 ≤ base ∧ confirm t then base + 3/10 else base

/-- The `best_match` / `best_score` accumulation loop of
`match_article_with_topics`: a topic replaces the current best exactly when
its score is strictly greater than `best_score` and at least `0.5`. -/
def bestTopicLoop (confirm : Topic → Bool) (fullContent : String) :
    List Topic → Option Topic → ℚ → Option Topic
  | [], best, _ => best
  | t :: rest, best, bestScore =>
    if topicScore confirm fullContent t > bestScore ∧
        topicScore confirm fullContent t ≥ 1/2 then
      bestTopicLoop confirm fullContent rest (some t) (topicScore confirm fullContent t)
    else
      bestTopicLoop confirm fullContent rest best bestScore

/-- `full_content = f"{article_headline}\n\n{article_content}"`. -/
def fullText (article_headline article_content : String) : String :=
  article_headline ++ "\n\n" ++ article_content

/-- `match_article_with_topics(article_content, article_headline, topics)`
from src/topicManagement/topic_matcher.py, with the LLM confirmation
collaborator passed in as `confirm`.  Returns the matched topic or `none`. -/
def match_article_with_topics (confirm : Topic → Bool)
    (article_content article_headline : String) (topics : List Topic) :
    Option Topic :=
  if topics = [] then none
  else
    bestTopicLoop confirm (fullText article_headline article_content)
      topics none 0

/-! ## VectorSimilarity

`cosine_similarity` appears twice in the source with the same mathematics:
the zip-based version in src/createArticles/dataPrep/similarity.py
(`dot = sum(a*b for a, b in zip(vec1, vec2))`,
`norm = math.sqrt(sum(a*a for a in vec))`) and the numpy version in
src/createArticles/review/similarity.py (`np.dot`, `np.linalg.norm`), both
returning `0` when either norm is zero.  Floats are idealised as `ℝ`. -/

/-- `sum(a * b for a, b in zip(vec1, vec2))`. -/
noncomputable def dotList (v1 v2 : List ℝ) : ℝ :=
  ((v1.zip v2).map (fun p => p.1 * p.2)).sum

/-- `sum(a * a for a in vec)` — the squared Euclidean norm. -/
noncomputable def sqNorm (v : List ℝ) : ℝ :=
  (v.map (fun a => a * a)).sum

/-- `cosine_similarity(vec1, vec2)`: `dot / (norm1 * norm2)` with
`norm_i = sqrt(sqNorm v_i)`, and `0` when either norm is zero. -/
noncomputable def cosine_similarity (v1 v2 : List ℝ) : ℝ :=
  if Real.sqrt (sqNorm v1) = 0 ∨ Real.sqrt (sqNorm v2) = 0 then 0
  else dotList v1 v2 / (Real.sqrt (sqNorm v1) * Real.sqrt (sqNorm v2))

/-! ## Data model: a row of the `NewsResults` table

The dict fields read by the core: `row["id"]`, `row.get("uniqueName", "")`,
`row.get("url", "")`, `row.get("embedding", [])`.  `""` models an absent or
empty string value (Python-falsy either way), `[]` a missing embedding. -/

structure NewsItem where
  id : ℤ
  uniqueName : String
  url : String
  embedding : List ℝ

/-! ## CandidateGrouper
(`group_similar_articles` in src/createArticles/dataPrep/article_grouping.py)

The `visited` set of ids is threaded explicitly as a `List ℤ`. -/

section Grouping

open Classical in
/-- The `for existing in existing_articles` scan of `group_similar_articles`:
skip visited ids and missing embeddings, and on the first existing item with
similarity strictly above `threshold` append it, mark it visited and `break`. -/
noncomputable def groupScanExisting (anchor : NewsItem) (threshold : ℝ) :
    List NewsItem → List ℤ → Option NewsItem × List ℤ
  | [], visited => (none, visited)
  | e :: rest, visited =>
    if e.id ∈ visited then groupScanExisting anchor threshold rest visited
    else if anchor.embedding = [] ∨ e.embedding = [] then
      groupScanExisting anchor threshold rest visited
    else if cosine_similarity anchor.embedding e.embedding > threshold then
      (some e, e.id :: visited)
    else groupScanExisting anchor threshold rest visited

open Classical in
/-- The `for other in new_articles` scan of `group_similar_articles`:
append every unvisited new item with similarity to the anchor strictly above
`threshold`, marking each visited (no early stop). -/
noncomputable def groupScanNew (anchor : NewsItem) (threshold : ℝ) :
    List NewsItem → List ℤ → List NewsItem × List ℤ
  | [], visited => ([], visited)
  | o :: rest, visited =>
    if o.id ∈ visited then groupScanNew anchor threshold rest visited
    else if anchor.embedding = [] ∨ o.embedding = [] then
      groupScanNew anchor threshold rest visited
    else if cosine_similarity anchor.embedding o.embedding > threshold then
      (o :: (groupScanNew anchor threshold rest (o.id :: visited)).1,
       (groupScanNew anchor threshold rest (o.id :: visited)).2)
    else groupScanNew anchor threshold rest visited

/-- One iteration body of the main loop: the group built for anchor `n`
(`group = [new_article]`, then the existing-scan, then the new-scan) together
with the visited set it leaves behind. -/
noncomputable def buildGroup (existing allNew : List NewsItem) (threshold : ℝ)
    (n : NewsItem) (visited : List ℤ) : List NewsItem × List ℤ :=
  (n :: ((groupScanExisting n threshold existing (n.id :: visited)).1.toList ++
      (groupScanNew n threshold allNew
        (groupScanExisting n threshold existing (n.id :: visited)).2).1),
   (groupScanNew n threshold allNew
      (groupScanExisting n threshold existing (n.id :: visited)).2).2)

open Classical in
/-- The main `for new_article in new_articles` loop of
`group_similar_articles`, accumulating groups in order. -/
noncomputable def groupLoop (existing allNew : List NewsItem) (threshold : ℝ) :
    List NewsItem → List ℤ → List (List NewsItem) × List ℤ
  | [], visited => ([], visited)
  | n :: rest, visited =>
    if n.id ∈ visited then groupLoop existing allNew threshold rest visited
    else
      ((buildGroup existing allNew threshold n visited).1 ::
        (groupLoop existing allNew threshold rest
          (buildGroup existing allNew threshold n visited).2).1,
       (groupLoop existing allNew threshold rest
          (buildGroup existing allNew threshold n visited).2).2)

/-- The trailing `for new_article in new_articles` cleanup loop: any new
article still unvisited becomes a singleton group. -/
def leftoverLoop : List NewsItem → List ℤ → List (List NewsItem) × List ℤ
  | [], visited => ([], visited)
  | n :: rest, visited =>
    if n.id ∈ visited then leftoverLoop rest visited
    else (([n] :: (leftoverLoop rest (n.id :: visited)).1),
      (leftoverLoop rest (n.id :: visited)).2)

/-- `group_similar_articles(new_articles, existing_articles, threshold)`
(default threshold `0.85` at the call sites). -/
noncomputable def group_similar_articles
    (new_articles existing_articles : List NewsItem) (threshold : ℝ) :
    List (List NewsItem) :=
  (groupLoop existing_articles new_articles threshold new_articles []).1 ++
    (leftoverLoop new_articles
      (groupLoop existing_articles new_articles threshold new_articles []).2).1

end Grouping

/-! ## DuplicateMatcher
(the per-unprocessed-item candidate collection and best-match selection
inside `check_similarity_and_update`, src/createArticles/review/similarity.py)
-/

/-- The self-comparison guard:
`(processed_url and processed_url == unprocessed_url) or
(processed_uniquename and processed_uniquename == unprocessed_uniquename)`
(an empty string is Python-falsy, so empty fields never trigger the guard). -/
def selfGuard (u p : NewsItem) : Prop :=
  (p.url ≠ "" ∧ p.url = u.url) ∨ (p.uniqueName ≠ "" ∧ p.uniqueName = u.uniqueName)

instance (u p : NewsItem) : Decidable (selfGuard u p) := by
  unfold selfGuard; infer_instance

section DupMatch

open Classical in
/-- The `for processed in processed_articles` loop collecting
`similar_processed`: skip the self-comparison guard, missing embeddings and
dimension mismatches, and keep every `(article, similarity)` pair with
similarity at least `threshold` (note: `>=`, not strict). -/
noncomputable def similarProcessedFor (u : NewsItem) (threshold : ℝ) :
    List NewsItem → List (NewsItem × ℝ)
  | [] => []
  | p :: rest =>
    if selfGuard u p then similarProcessedFor u threshold rest
    else if p.embedding = [] then similarProcessedFor u threshold rest
    else if u.embedding.length ≠ p.embedding.length then
      similarProcessedFor u threshold rest
    else if cosine_similarity u.embedding p.embedding ≥ threshold then
      (p, cosine_similarity u.embedding p.embedding) ::
        similarProcessedFor u threshold rest
    else similarProcessedFor u threshold rest

open Classical in
/-- Insertion step of a stable descending sort on the similarity key:
`x` goes in front of the first element it strictly beats, so elements with
equal keys keep their original relative order — the behaviour of Python's
stable `list.sort(key=..., reverse=True)`. -/
noncomputable def insertDesc (x : NewsItem × ℝ) :
    List (NewsItem × ℝ) → List (NewsItem × ℝ)
  | [] => [x]
  | y :: ys => if x.2 ≥ y.2 then x :: y :: ys else y :: insertDesc x ys

/-- `similar_processed.sort(key=lambda x: x["similarity"], reverse=True)`
as a stable insertion sort. -/
noncomputable def sortDesc : List (NewsItem × ℝ) → List (NewsItem × ℝ)
  | [] => []
  | x :: xs => insertDesc x (sortDesc xs)

section DupClassical
open Classical

/-- The per-item duplicate selection of `check_similarity_and_update`:
an item without embedding is skipped, otherwise the candidates are collected,
sorted by similarity (stable, descending) and the head — the most similar
processed article, first in population order among ties — is taken
(`similar_processed[0]` after the sort). -/
noncomputable def findDuplicate (u : NewsItem) (threshold : ℝ)
    (processedArticles : List NewsItem) : Option (NewsItem × ℝ) :=
  if u.embedding = [] then none
  else (sortDesc (similarProcessedFor u threshold processedArticles)).head?

end DupClassical

end DupMatch

/-! ## MergeReconciler
(the lookup / combine / regenerate / commit tail of
`check_similarity_and_update`, src/createArticles/review/similarity.py)

The database tables are passed as in-memory lists, the two collaborator
calls as explicit arguments: `regen` is the outcome of the LLM content
regeneration (`none` models the `except` branch around
`generate_text_with_model`), `updateOk` the boolean result of
`update_article`. -/

/-- A row of the `NewsArticle` table, with the fields the merge logic reads:
`id`, `Status`, `sourceURL`, `NewsResult` (back-reference, holding either
`str(news_result_id)` or a `uniqueName`), and the two article bodies. -/
structure NewsArticle where
  id : ℤ
  status : String
  sourceURL : String
  newsResult : String
  englishArticle : String
  germanArticle : String

/-- `dict.fromkeys(...)` de-duplication: keep the first occurrence of every
string, preserving order; `seen` accumulates the keys already emitted. -/
def dedupAux : List String → List String → List String
  | [], _ => []
  | x :: xs, seen =>
    if x ∈ seen then dedupAux xs seen else x :: dedupAux xs (x :: seen)

/-- `list(dict.fromkeys(l))`. -/
def dedupKeepFirst (l : List String) : List String :=
  dedupAux l []

/-- The `for similar in similar_processed` loop appending each similar
article's url to `existing_source_urls` when it is non-empty and not yet
present. -/
def collectSimilarUrls (acc : List String) :
    List (NewsItem × ℝ) → List String
  | [] => acc
  | s :: rest =>
    if s.1.url ≠ "" ∧ s.1.url ∉ acc then
      collectSimilarUrls (acc ++ [s.1.url]) rest
    else collectSimilarUrls acc rest

/-- `all_source_urls = list(filter(None, dict.fromkeys(existing_source_urls
+ [unprocessed_source_url])))` where `existing_source_urls` starts as
`[existing_article.get("sourceURL")]` and absorbs the similar articles'
urls. -/
def combinedSourceUrls (existingURL : String)
    (sortedSimilar : List (NewsItem × ℝ)) (unprocessedURL : String) :
    List String :=
  (dedupKeepFirst
      (collectSimilarUrls [existingURL] sortedSimilar ++ [unprocessedURL])).filter
    (fun u => u ≠ "")

/-- The three-stage article lookup: `NewsArticle` rows with
`NewsResult == str(most_similar_id)` first, then
`NewsResult == most_similar_uniquename`, then the first row whose
`sourceURL` contains `most_similar_url` as a substring (only attempted when
that url is non-empty). -/
def lookupArticleFor (articles : List NewsArticle) (ms : NewsItem) :
    Option NewsArticle :=
  match articles.filter (fun a => a.newsResult = toString ms.id) with
  | a :: _ => some a
  | [] =>
    match articles.filter (fun a => a.newsResult = ms.uniqueName) with
    | a :: _ => some a
    | [] => articles.find? (fun a => ms.url ≠ "" && strHasSub a.sourceURL ms.url)

/-- The outcome of one merge attempt: whether the existing article was
updated, whether the unprocessed item was marked processed (and its id added
to the skip list `processed_article_ids`), and the written fields. -/
structure MergeOutcome where
  success : Bool
  markedProcessed : Bool
  updatedSourceURL : Option String
  updatedStatus : Option String

/-- Every failure branch (`continue` / failed update): the article is not
updated, the unprocessed item is not marked processed and is left for the
normal non-merge pipeline. -/
def mergeFallback : MergeOutcome :=
  ⟨false, false, none, none⟩

section MergeClassical
open Classical

/-- The COMMIT stage: `update_article` succeeded (`updateOk`) writes the
combined source urls and the UPDATED status and marks the unprocessed item
processed; a failed update falls back. -/
noncomputable def mergeCommit (updateOk : Bool) (combined : List String) :
    MergeOutcome :=
  if updateOk then
    { success := true
      markedProcessed := true
      updatedSourceURL := some (String.intercalate ", " combined)
      updatedStatus := some "UPDATED" }
  else mergeFallback

/-- The stages after the target article is resolved: refuse ARCHIVED and
DELETED targets, then regenerate (collaborator outcome `regen`, `none`
modelling the raised exception), then commit. -/
noncomputable def mergeWithArticle (regen : Option (String × String))
    (updateOk : Bool) (combined : List String) (art : NewsArticle) :
    MergeOutcome :=
  if art.status = "ARCHIVED" ∨ art.status = "DELETED" then mergeFallback
  else
    match regen with
    | none => mergeFallback
    | some _ => mergeCommit updateOk combined

/-- The stages after the most similar candidate is chosen: re-check its
`NewsResults` row is present and still processed, resolve the `NewsArticle`,
combine the source urls, and continue. -/
noncomputable def mergeWithMost (newsResults : List (ℤ × Bool))
    (articles : List NewsArticle) (regen : Option (String × String))
    (updateOk : Bool) (unprocessed : NewsItem)
    (sortedSimilar : List (NewsItem × ℝ)) (most : NewsItem × ℝ) :
    MergeOutcome :=
  match (newsResults.filter (fun r => r.1 = most.1.id)).head? with
  | none => mergeFallback
  | some row =>
    if row.2 = false then mergeFallback
    else
      match lookupArticleFor articles most.1 with
      | none => mergeFallback
      | some art =>
        mergeWithArticle regen updateOk
          (combinedSourceUrls art.sourceURL sortedSimilar unprocessed.url) art

/-- The merge tail of `check_similarity_and_update` for one unprocessed item
with candidate list `similarProcessed`: sort candidates, take the most
similar (`similar_processed[0]` after the stable descending sort), and run
the lookup / combine / regenerate / commit stages. -/
noncomputable def reconcileMerge (newsResults : List (ℤ × Bool))
    (articles : List NewsArticle) (regen : Option (String × String))
    (updateOk : Bool) (unprocessed : NewsItem)
    (similarProcessed : List (NewsItem × ℝ)) : MergeOutcome :=
  match (sortDesc similarProcessed).head? with
  | none => mergeFallback
  | some most =>
    mergeWithMost newsResults articles regen updateOk unprocessed
      (sortDesc similarProcessed) most

end MergeClassical

/-! ## Lemmas about `cosine_similarity` -/

lemma sqNorm_nonneg (v : List ℝ) : 0 ≤ sqNorm v := by
  induction v with
  | nil => simp [sqNorm]
  | cons a t ih =>
    simp only [sqNorm, List.map_cons, List.sum_cons]
    have := mul_self_nonneg a
    simp only [sqNorm] at ih
    linarith

lemma sqNorm_pos_of_mem {v : List ℝ} {x : ℝ} (hx : x ∈ v) (hne : x ≠ 0) :
    0 < sqNorm v := by
  induction v with
  | nil => simp at hx
  | cons a t ih =>
    simp only [sqNorm, List.map_cons, List.sum_cons]
    rcases List.mem_cons.mp hx with h | h
    · subst h
      have h1 : 0 < x * x := mul_self_pos.mpr hne
      have h2 : 0 ≤ sqNorm t := sqNorm_nonneg t
      simp only [sqNorm] at h2
      linarith
    · have h1 := ih h
      simp only [sqNorm] at h1
      have h2 := mul_self_nonneg a
      linarith

lemma dotList_self (v : List ℝ) : dotList v v = sqNorm v := by
  induction v with
  | nil => simp [dotList, sqNorm]
  | cons a t ih =>
    simp only [dotList, sqNorm, List.zip_cons_cons, List.map_cons,
      List.sum_cons] at ih ⊢
    rw [ih]

lemma cosine_similarity_self_of_ne {v : List ℝ} (h : ∃ x ∈ v, x ≠ 0) :
    cosine_similarity v v = 1 := by
  obtain ⟨x, hx, hne⟩ := h
  have hpos : 0 < sqNorm v := sqNorm_pos_of_mem hx hne
  have hs : Real.sqrt (sqNorm v) ≠ 0 := ne_of_gt (Real.sqrt_pos.mpr hpos)
  have hsq : Real.sqrt (sqNorm v) * Real.sqrt (sqNorm v) = sqNorm v :=
    Real.mul_self_sqrt (le_of_lt hpos)
  rw [cosine_similarity, if_neg (by simp [hs]), dotList_self, hsq]
  exact div_self (ne_of_gt hpos)

/-- C9: for all vectors, `cosine_similarity` is `dot / (‖a‖·‖b‖)` when both
norms are non-zero; orthogonal vectors give `0`; identical non-zero vectors
give `1`; and whenever either vector has zero magnitude (including the empty
vector) the result is `0`, with no division by zero (the function is total). -/
theorem cosine_similarity_correct :
    (∀ v1 v2 : List ℝ, Real.sqrt (sqNorm v1) ≠ 0 → Real.sqrt (sqNorm v2) ≠ 0 →
      cosine_similarity v1 v2 =
        dotList v1 v2 / (Real.sqrt (sqNorm v1) * Real.sqrt (sqNorm v2))) ∧
    (∀ v1 v2 : List ℝ, dotList v1 v2 = 0 → cosine_similarity v1 v2 = 0) ∧
    (∀ v : List ℝ, (∃ x ∈ v, x ≠ 0) → cosine_similarity v v = 1) ∧
    (∀ v1 v2 : List ℝ,
      Real.sqrt (sqNorm v1) = 0 ∨ Real.sqrt (sqNorm v2) = 0 →
      cosine_similarity v1 v2 = 0) ∧
    (∀ v : List ℝ, cosine_similarity [] v = 0 ∧ cosine_similarity v [] = 0) := by
  have hzero : ∀ v1 v2 : List ℝ,
      Real.sqrt (sqNorm v1) = 0 ∨ Real.sqrt (sqNorm v2) = 0 →
      cosine_similarity v1 v2 = 0 := by
    intro v1 v2 h
    simp [cosine_similarity, h]
  refine ⟨?_, ?_, ?_, hzero, ?_⟩
  · intro v1 v2 h1 h2
    simp [cosine_similarity, h1, h2]
  · intro v1 v2 hdot
    by_cases h : Real.sqrt (sqNorm v1) = 0 ∨ Real.sqrt (sqNorm v2) = 0
    · exact hzero v1 v2 h
    · simp [cosine_similarity, h, hdot]
  · intro v hv
    exact cosine_similarity_self_of_ne hv
  · intro v
    have he : Real.sqrt (sqNorm ([] : List ℝ)) = 0 := by
      simp [sqNorm]
    exact ⟨hzero [] v (Or.inl he), hzero v [] (Or.inr he)⟩

/-- C9 witness: the orthogonal pair `[1,0]`, `[0,1]` scores `0`; the identical
non-zero pair `[3,4]` scores `1`; the empty vector against `[5]` scores `0`. -/
theorem cosine_similarity_correct_witness :
    cosine_similarity [1, 0] [0, 1] = 0 ∧
    cosine_similarity [3, 4] [3, 4] = 1 ∧
    cosine_similarity [] [5] = 0 :=
  ⟨cosine_similarity_correct.2.1 [1, 0] [0, 1]
      (by simp [dotList]),
   cosine_similarity_correct.2.2.1 [3, 4] ⟨3, by simp, by norm_num⟩,
   (cosine_similarity_correct.2.2.2.2 [5]).1⟩

/-! ## Lemmas about the topic-matching loop -/

lemma bestTopicLoop_spec (confirm : Topic → Bool) (full : String) :
    ∀ (l : List Topic) (best : Option Topic) (b0 : ℚ),
    (∀ u, best = some u → b0 = topicScore confirm full u ∧ 1/2 ≤ b0) →
    ∀ t, bestTopicLoop confirm full l best b0 = some t →
      (t ∈ l ∨ best = some t) ∧ 1/2 ≤ topicScore confirm full t ∧
      b0 ≤ topicScore confirm full t ∧
      ∀ t' ∈ l, topicScore confirm full t' ≤ topicScore confirm full t := by
  intro l
  induction l with
  | nil =>
    intro best b0 hinv t ht
    simp only [bestTopicLoop] at ht
    obtain ⟨hb, hhalf⟩ := hinv t ht
    exact ⟨Or.inr ht, hb ▸ hhalf, le_of_eq hb, by simp⟩
  | cons h rest ih =>
    intro best b0 hinv t ht
    simp only [bestTopicLoop] at ht
    by_cases hcond : topicScore confirm full h > b0 ∧
        topicScore confirm full h ≥ 1/2
    · rw [if_pos hcond] at ht
      have hinv' : ∀ u, (some h : Option Topic) = some u →
          topicScore confirm full h = topicScore confirm full u ∧
          1/2 ≤ topicScore confirm full h := by
        intro u hu
        cases hu
        exact ⟨rfl, hcond.2⟩
      obtain ⟨hmem, hhalf, hb0, hall⟩ := ih (some h) _ hinv' t ht
      refine ⟨?_, hhalf, le_trans (le_of_lt hcond.1) hb0, ?_⟩
      · rcases hmem with hm | hm
        · exact Or.inl (List.mem_cons_of_mem _ hm)
        · cases hm
          exact Or.inl (List.mem_cons_self _ _)
      · intro t' ht'
        rcases List.mem_cons.mp ht' with h' | h'
        · subst h'
          exact hb0
        · exact hall t' h'
    · rw [if_neg hcond] at ht
      obtain ⟨hmem, hhalf, hb0, hall⟩ := ih best b0 hinv t ht
      refine ⟨?_, hhalf, hb0, ?_⟩
      · rcases hmem with hm | hm
        · exact Or.inl (List.mem_cons_of_mem _ hm)
        · exact Or.inr hm
      · intro t' ht'
        rcases List.mem_cons.mp ht' with h' | h'
        · subst h'
          rcases not_and_or.mp hcond with hc | hc
          · exact le_trans (le_of_not_lt hc) hb0
          · exact le_trans (le_of_lt (lt_of_not_le hc)) hhalf
        · exact hall t' h'

lemma topicScore_of_not_reach (confirm : Topic → Bool) (full : String)
    (t : Topic) (h : keywordScore full t < 3/10) :
    topicScore confirm full t = keywordScore full t := by
  rw [topicScore]
  exact if_neg (fun hc => absurd hc.1 (not_le.mpr h))

lemma bestTopicLoop_none (confirm : Topic → Bool) (full : String) :
    ∀ (l : List Topic) (best : Option Topic) (b0 : ℚ),
    (∀ t ∈ l, topicScore confirm full t < 1/2) →
    bestTopicLoop confirm full l best b0 = best := by
  intro l
  induction l with
  | nil => intro best b0 _; rfl
  | cons h rest ih =>
    intro best b0 hlt
    simp only [bestTopicLoop]
    rw [if_neg (by
      intro hc
      exact absurd hc.2 (not_le.mpr (hlt h (List.mem_cons_self _ _))))]
    exact ih best b0 (fun t ht => hlt t (List.mem_cons_of_mem _ ht))

lemma bestTopicLoop_isSome (confirm : Topic → Bool) (full : String) :
    ∀ (l : List Topic) (u : Topic) (b0 : ℚ),
    ∃ t, bestTopicLoop confirm full l (some u) b0 = some t := by
  intro l
  induction l with
  | nil => intro u b0; exact ⟨u, rfl⟩
  | cons h rest ih =>
    intro u b0
    rw [bestTopicLoop]
    by_cases hc : topicScore confirm full h > b0 ∧
        topicScore confirm full h ≥ 1/2
    · rw [if_pos hc]
      exact ih h _
    · rw [if_neg hc]
      exact ih u b0

lemma bestTopicLoop_reaches (confirm : Topic → Bool) (full : String) :
    ∀ l : List Topic,
    (∃ t ∈ l, 1/2 ≤ topicScore confirm full t) →
    ∃ t', bestTopicLoop confirm full l none 0 = some t' := by
  intro l
  induction l with
  | nil =>
    intro hex
    obtain ⟨t, ht, _⟩ := hex
    simp at ht
  | cons h rest ih =>
    intro hex
    obtain ⟨t, ht, hs⟩ := hex
    rw [bestTopicLoop]
    by_cases hc : topicScore confirm full h > 0 ∧
        topicScore confirm full h ≥ 1/2
    · rw [if_pos hc]
      exact bestTopicLoop_isSome confirm full rest h _
    · rw [if_neg hc]
      rcases List.mem_cons.mp ht with he | hm
      · exfalso
        subst he
        exact hc ⟨lt_of_lt_of_le (by norm_num) hs, hs⟩
      · exact ih ⟨t, hm, hs⟩

/-- C8: the keyword score is the fraction of the topic's keywords found
case-insensitively in headline+content, with an empty keyword list scoring
`0` without error; only candidates with keyword score `≥ 0.3` are escalated
to the LLM collaborator (below `0.3` the collaborator's answer cannot affect
the score); a confirmed candidate is boosted by exactly `+0.3`; the function
returns the highest-scoring candidate with final score `≥ 0.5` — whenever
some candidate reaches `0.5` a topic IS returned, and any returned topic is
a maximal candidate with score `≥ 0.5` — and `none` when no candidate
reaches `0.5`. -/
theorem topic_matcher_contract (confirm : Topic → Bool)
    (content headline : String) (topics : List Topic) :
    (∀ t : Topic, t.keywords = [] →
      keywordScore (fullText headline content) t = 0 ∧
      topicScore confirm (fullText headline content) t = 0) ∧
    (∀ t : Topic, t.keywords ≠ [] →
      keywordScore (fullText headline content) t =
        ((t.keywords.filter (keywordHit (fullText headline content))).length : ℚ) /
          (t.keywords.length : ℚ)) ∧
    (∀ t : Topic, keywordScore (fullText headline content) t < 3/10 →
      ∀ c : Topic → Bool, topicScore c (fullText headline content) t =
        keywordScore (fullText headline content) t) ∧
    (∀ t : Topic, 3/10 ≤ keywordScore (fullText headline content) t →
      confirm t = true →
      topicScore confirm (fullText headline content) t =
        keywordScore (fullText headline content) t + 3/10) ∧
    (∀ t, match_article_with_topics confirm content headline topics = some t →
      t ∈ topics ∧ 1/2 ≤ topicScore confirm (fullText headline content) t ∧
      ∀ t' ∈ topics, topicScore confirm (fullText headline content) t' ≤
        topicScore confirm (fullText headline content) t) ∧
    ((∀ t ∈ topics, topicScore confirm (fullText headline content) t < 1/2) →
      match_article_with_topics confirm content headline topics = none) ∧
    ((∃ t ∈ topics, 1/2 ≤ topicScore confirm (fullText headline content) t) →
      ∃ t', match_article_with_topics confirm content headline topics =
        some t') := by
  refine ⟨?_, ?_, ?_, ?_, ?_, ?_, ?_⟩
  · intro t hk
    have hks : keywordScore (fullText headline content) t = 0 := by
      rw [keywordScore, if_pos hk]
    refine ⟨hks, ?_⟩
    rw [topicScore]
    rw [if_neg (fun hc => by
      rw [hks] at hc
      exact absurd hc.1 (by norm_num))]
    exact hks
  · intro t hk
    rw [keywordScore, if_neg hk, keywordCount]
  · intro t h c
    exact topicScore_of_not_reach c _ t h
  · intro t h hc
    rw [topicScore]
    exact if_pos ⟨h, by rw [hc]⟩
  · intro t ht
    rw [match_article_with_topics] at ht
    by_cases he : topics = []
    · rw [if_pos he] at ht
      exact absurd ht (by simp)
    · rw [if_neg he] at ht
      obtain ⟨hmem, hhalf, _, hall⟩ :=
        bestTopicLoop_spec confirm (fullText headline content) topics none 0
          (fun u hu => by cases hu) t ht
      rcases hmem with hm | hm
      · exact ⟨hm, hhalf, hall⟩
      · cases hm
  · intro hlt
    rw [match_article_with_topics]
    by_cases he : topics = []
    · rw [if_pos he]
    · rw [if_neg he]
      exact bestTopicLoop_none confirm _ topics none 0 hlt
  · intro hex
    rw [match_article_with_topics]
    rw [if_neg (by
      intro he
      subst he
      obtain ⟨t, ht, _⟩ := hex
      simp at ht)]
    exact bestTopicLoop_reaches confirm _ topics hex

/-- The topic of the spec's scenario C: keywords `["draft","pick","round"]`. -/
def draftTopic : Topic :=
  ⟨1, "NFL Draft", ["draft", "pick", "round"], "The annual NFL entry draft"⟩

/-- A topic with an empty keyword list. -/
def emptyKwTopic : Topic :=
  ⟨2, "Empty", [], "no keywords"⟩

/-- A topic whose single keyword is hit, giving keyword score `1`. -/
def posTopic : Topic :=
  ⟨4, "Positive", ["alpha"], "single keyword"⟩

/-- C8 witness: an empty keyword list scores `0`; a catalog whose only topic
matches no keyword yields no assignment; and a catalog whose only topic
reaches score `1 ≥ 0.5` does get a topic returned. -/
theorem topic_matcher_contract_witness :
    (keywordScore (fullText "h" "c") emptyKwTopic = 0 ∧
      topicScore (fun _ => true) (fullText "h" "c") emptyKwTopic = 0) ∧
    match_article_with_topics (fun _ => false) "nothing here" "x"
      [draftTopic] = none ∧
    ∃ t', match_article_with_topics (fun _ => false) "alpha" ""
      [posTopic] = some t' := by
  refine ⟨?_, ?_, ?_⟩
  · exact (topic_matcher_contract (fun _ => true) "c" "h" []).1 emptyKwTopic rfl
  · have h1 : keywordHit (fullText "x" "nothing here") "draft" = false := by decide
    have h2 : keywordHit (fullText "x" "nothing here") "pick" = false := by decide
    have h3 : keywordHit (fullText "x" "nothing here") "round" = false := by decide
    refine (topic_matcher_contract (fun _ => false) "nothing here" "x"
      [draftTopic]).2.2.2.2.2.1 ?_
    intro t ht
    have heq : t = draftTopic := by
      cases List.mem_singleton.mp ht
      rfl
    subst heq
    have hks : keywordScore (fullText "x" "nothing here") draftTopic = 0 := by
      rw [keywordScore]
      simp [draftTopic, keywordCount, List.filter, h1, h2, h3]
    rw [topicScore_of_not_reach _ _ _ (by rw [hks]; norm_num), hks]
    norm_num
  · have h1 : keywordHit (fullText "" "alpha") "alpha" = true := by decide
    have hks : keywordScore (fullText "" "alpha") posTopic = 1 := by
      rw [keywordScore, if_neg (by simp [posTopic])]
      rw [keywordCount]
      simp [posTopic, List.filter, h1]
    refine (topic_matcher_contract (fun _ => false) "alpha" ""
      [posTopic]).2.2.2.2.2.2 ⟨posTopic, List.mem_singleton_self _, ?_⟩
    rw [topicScore]
    rw [if_neg (by
      intro hc
      exact Bool.false_ne_true hc.2)]
    rw [hks]
    norm_num

/-- C1 counterexample: in scenario C — topic keywords
`["draft","pick","round"]`, article text containing only "draft", LLM
collaborator answering `true` — the final score is `1/3 + 3/10 = 19/30`,
which is NOT below the `0.5` acceptance threshold, and
`match_article_with_topics` returns the topic instead of `none`. -/
theorem scenario_c_counterexample :
    topicScore (fun _ => true) (fullText "" "draft") draftTopic = 1/3 + 3/10 ∧
    (1/2 : ℚ) ≤ 1/3 + 3/10 ∧
    match_article_with_topics (fun _ => true) "draft" "" [draftTopic] =
      some draftTopic := by
  have h1 : keywordHit (fullText "" "draft") "draft" = true := by decide
  have h2 : keywordHit (fullText "" "draft") "pick" = false := by decide
  have h3 : keywordHit (fullText "" "draft") "round" = false := by decide
  have hks : keywordScore (fullText "" "draft") draftTopic = 1/3 := by
    rw [keywordScore]
    simp [draftTopic, keywordCount, List.filter, h1, h2, h3]
  have ht : topicScore (fun _ => true) (fullText "" "draft") draftTopic =
      1/3 + 3/10 := by
    rw [topicScore]
    simp only [hks]
    norm_num
  refine ⟨ht, by norm_num, ?_⟩
  rw [match_article_with_topics, if_neg (by simp)]
  simp only [bestTopicLoop, ht]
  rw [if_pos (by norm_num)]

/-- C1 amended: in scenario C the keyword score is `1/3 ≈ 0.33 ≥ 0.3`, so the
candidate is escalated; a `true` confirmation boosts the score to
`1/3 + 0.3 = 19/30 ≈ 0.63`, which is `≥ 0.5`, so the topic IS assigned — the
function returns the topic for this single-topic catalog (the spec's claim
that `0.63 < 0.5` forces rejection is arithmetically wrong). -/
theorem scenario_c_amended (t : Topic) (confirm : Topic → Bool)
    (content headline : String)
    (hk : t.keywords = ["draft", "pick", "round"])
    (h1 : keywordHit (fullText headline content) "draft" = true)
    (h2 : keywordHit (fullText headline content) "pick" = false)
    (h3 : keywordHit (fullText headline content) "round" = false)
    (hc : confirm t = true) :
    keywordScore (fullText headline content) t = 1/3 ∧
    topicScore confirm (fullText headline content) t = 1/3 + 3/10 ∧
    match_article_with_topics confirm content headline [t] = some t := by
  have hks : keywordScore (fullText headline content) t = 1/3 := by
    rw [keywordScore, if_neg (by rw [hk]; simp)]
    rw [keywordCount, hk]
    simp [List.filter, h1, h2, h3]
  have ht : topicScore confirm (fullText headline content) t = 1/3 + 3/10 := by
    rw [topicScore]
    simp only [hks, hc]
    norm_num
  refine ⟨hks, ht, ?_⟩
  rw [match_article_with_topics, if_neg (by simp)]
  simp only [bestTopicLoop, ht]
  rw [if_pos (by norm_num)]

/-- C1 witness for the amended claim, at the concrete scenario input. -/
theorem scenario_c_amended_witness :
    match_article_with_topics (fun _ => true) "draft" "" [draftTopic] =
      some draftTopic :=
  (scenario_c_amended draftTopic (fun _ => true) "draft" "" rfl
    (by decide) (by decide) (by decide) rfl).2.2

/-- C10: a negative LLM confirmation never disqualifies a candidate — when a
topic's keyword coverage alone reaches `0.5`, `match_article_with_topics`
still returns it for a single-topic catalog even though the collaborator
answers `false`: the denial merely withholds the `+0.3` boost. -/
theorem negative_confirmation_not_disqualifying (t : Topic)
    (confirm : Topic → Bool) (content headline : String)
    (hc : confirm t = false)
    (hs : 1/2 ≤ keywordScore (fullText headline content) t) :
    match_article_with_topics confirm content headline [t] = some t := by
  have ht : topicScore confirm (fullText headline content) t =
      keywordScore (fullText headline content) t := by
    rw [topicScore]
    rw [if_neg (by
      intro hx
      rw [hc] at hx
      exact Bool.false_ne_true hx.2)]
  rw [match_article_with_topics, if_neg (by simp)]
  simp only [bestTopicLoop, ht]
  rw [if_pos ⟨by linarith, by linarith⟩]

/-- The topic used in the C10 witness: two keywords, both hit by the text. -/
def fullCoverageTopic : Topic :=
  ⟨3, "Coverage", ["alpha", "beta"], "both keywords present"⟩

/-- C10 witness: both keywords occur, so the coverage score is `1 ≥ 0.5`, and
a denying collaborator still leaves the topic selected. -/
theorem negative_confirmation_not_disqualifying_witness :
    match_article_with_topics (fun _ => false) "alpha beta" ""
      [fullCoverageTopic] = some fullCoverageTopic := by
  have h1 : keywordHit (fullText "" "alpha beta") "alpha" = true := by decide
  have h2 : keywordHit (fullText "" "alpha beta") "beta" = true := by decide
  refine negative_confirmation_not_disqualifying fullCoverageTopic
    (fun _ => false) "alpha beta" "" rfl ?_
  rw [keywordScore, if_neg (by simp [fullCoverageTopic])]
  rw [keywordCount]
  simp [fullCoverageTopic, List.filter, h1, h2]
  norm_num

/-! ## Lemmas about the duplicate-candidate collection and selection -/

lemma similarProcessedFor_mem (u : NewsItem) (t : ℝ) :
    ∀ (pop : List NewsItem) (p : NewsItem) (s : ℝ),
    (p, s) ∈ similarProcessedFor u t pop →
    p ∈ pop ∧ ¬ selfGuard u p ∧ p.embedding ≠ [] ∧
    u.embedding.length = p.embedding.length ∧
    s = cosine_similarity u.embedding p.embedding ∧ t ≤ s := by
  intro pop
  induction pop with
  | nil => intro p s h; simp [similarProcessedFor] at h
  | cons q rest ih =>
    intro p s h
    rw [similarProcessedFor] at h
    by_cases h1 : selfGuard u q
    · rw [if_pos h1] at h
      obtain ⟨hm, hrest⟩ := ih p s h
      exact ⟨List.mem_cons_of_mem _ hm, hrest⟩
    · rw [if_neg h1] at h
      by_cases h2 : q.embedding = []
      · rw [if_pos h2] at h
        obtain ⟨hm, hrest⟩ := ih p s h
        exact ⟨List.mem_cons_of_mem _ hm, hrest⟩
      · rw [if_neg h2] at h
        by_cases h3 : u.embedding.length ≠ q.embedding.length
        · rw [if_pos h3] at h
          obtain ⟨hm, hrest⟩ := ih p s h
          exact ⟨List.mem_cons_of_mem _ hm, hrest⟩
        · rw [if_neg h3] at h
          push_neg at h3
          by_cases h4 : cosine_similarity u.embedding q.embedding ≥ t
          · rw [if_pos h4] at h
            rcases List.mem_cons.mp h with he | hm
            · have hp : p = q := congrArg Prod.fst he
              have hs : s = cosine_similarity u.embedding q.embedding :=
                congrArg Prod.snd he
              subst hp
              exact ⟨List.mem_cons_self _ _, h1, h2, h3, hs, hs ▸ h4⟩
            · obtain ⟨hm', hrest⟩ := ih p s hm
              exact ⟨List.mem_cons_of_mem _ hm', hrest⟩
          · rw [if_neg h4] at h
            obtain ⟨hm, hrest⟩ := ih p s h
            exact ⟨List.mem_cons_of_mem _ hm, hrest⟩

lemma similarProcessedFor_complete (u : NewsItem) (t : ℝ) :
    ∀ (pop : List NewsItem) (p : NewsItem), p ∈ pop →
    ¬ selfGuard u p → p.embedding ≠ [] →
    u.embedding.length = p.embedding.length →
    t ≤ cosine_similarity u.embedding p.embedding →
    (p, cosine_similarity u.embedding p.embedding) ∈
      similarProcessedFor u t pop := by
  intro pop
  induction pop with
  | nil => intro p hp; simp at hp
  | cons q rest ih =>
    intro p hp hg he hl ht
    rw [similarProcessedFor]
    rcases List.mem_cons.mp hp with he' | hm
    · subst he'
      rw [if_neg hg, if_neg he, if_neg (by rw [hl]; simp), if_pos ht]
      exact List.mem_cons_self _ _
    · have hin := ih p hm hg he hl ht
      by_cases h1 : selfGuard u q
      · rw [if_pos h1]; exact hin
      · rw [if_neg h1]
        by_cases h2 : q.embedding = []
        · rw [if_pos h2]; exact hin
        · rw [if_neg h2]
          by_cases h3 : u.embedding.length ≠ q.embedding.length
          · rw [if_pos h3]; exact hin
          · rw [if_neg h3]
            by_cases h4 : cosine_similarity u.embedding q.embedding ≥ t
            · rw [if_pos h4]
              exact List.mem_cons_of_mem _ hin
            · rw [if_neg h4]; exact hin

lemma insertDesc_length (x : NewsItem × ℝ) :
    ∀ l : List (NewsItem × ℝ), (insertDesc x l).length = l.length + 1 := by
  intro l
  induction l with
  | nil => rfl
  | cons y ys ih =>
    rw [insertDesc]
    by_cases h : x.2 ≥ y.2
    · rw [if_pos h]; rfl
    · rw [if_neg h]
      simp [ih]

lemma sortDesc_length :
    ∀ l : List (NewsItem × ℝ), (sortDesc l).length = l.length := by
  intro l
  induction l with
  | nil => rfl
  | cons x xs ih =>
    rw [sortDesc, insertDesc_length, ih]
    rfl

lemma sortDesc_head_spec :
    ∀ (l : List (NewsItem × ℝ)) (m : NewsItem × ℝ),
    (sortDesc l).head? = some m →
    m ∈ l ∧ (∀ y ∈ l, y.2 ≤ m.2) ∧
    ∃ pre post, l = pre ++ m :: post ∧ ∀ y ∈ pre, y.2 < m.2 := by
  intro l
  induction l with
  | nil => intro m h; simp [sortDesc] at h
  | cons x xs ih =>
    intro m h
    rw [sortDesc] at h
    rcases hxs : sortDesc xs with _ | ⟨y, ys⟩
    · have hnil : xs = [] := by
        have := sortDesc_length xs
        rw [hxs] at this
        exact List.length_eq_zero.mp this.symm
      rw [hxs] at h
      rw [insertDesc] at h
      simp only [List.head?] at h
      cases h
      subst hnil
      exact ⟨List.mem_singleton_self x, by simp,
        [], [], rfl, by simp⟩
    · rw [hxs] at h
      rw [insertDesc] at h
      by_cases hc : x.2 ≥ y.2
      · rw [if_pos hc] at h
        simp only [List.head?] at h
        cases h
        obtain ⟨hmem, hbound, _⟩ := ih y (by rw [hxs]; rfl)
        refine ⟨List.mem_cons_self _ _, ?_, [], xs, rfl, by simp⟩
        intro z hz
        rcases List.mem_cons.mp hz with hz' | hz'
        · subst hz'; exact le_refl _
        · exact le_trans (hbound z hz') hc
      · rw [if_neg hc] at h
        simp only [List.head?] at h
        cases h
        obtain ⟨hmem, hbound, pre, post, hdecomp, hpre⟩ :=
          ih m (by rw [hxs]; rfl)
        refine ⟨List.mem_cons_of_mem _ hmem, ?_,
          x :: pre, post, by rw [hdecomp]; rfl, ?_⟩
        · intro z hz
          rcases List.mem_cons.mp hz with hz' | hz'
          · subst hz'
            exact le_of_lt (lt_of_not_ge hc)
          · exact hbound z hz'
        · intro z hz
          rcases List.mem_cons.mp hz with hz' | hz'
          · subst hz'
            exact lt_of_not_ge hc
          · exact hpre z hz'

/-- C4: for an unprocessed item with an embedding, a selected duplicate never
violates the self-comparison guard (same non-empty url or uniqueName), never
has a missing embedding or a mismatched embedding length, and scores at least
the threshold; every processed item passing the guards with similarity `≥`
threshold is collected; and when the candidate set is non-empty the selected
item has the maximal similarity, ties broken by population order with the
first encountered winning.  No exception is possible (total function). -/
theorem duplicate_matcher_contract (u : NewsItem) (t : ℝ)
    (pop : List NewsItem) :
    (∀ p s, findDuplicate u t pop = some (p, s) →
      p ∈ pop ∧ ¬ selfGuard u p ∧ p.embedding ≠ [] ∧
      u.embedding.length = p.embedding.length ∧
      s = cosine_similarity u.embedding p.embedding ∧ t ≤ s) ∧
    (∀ p ∈ pop, ¬ selfGuard u p → p.embedding ≠ [] →
      u.embedding.length = p.embedding.length →
      t ≤ cosine_similarity u.embedding p.embedding →
      (p, cosine_similarity u.embedding p.embedding) ∈
        similarProcessedFor u t pop) ∧
    (u.embedding ≠ [] → similarProcessedFor u t pop ≠ [] →
      ∃ p s, findDuplicate u t pop = some (p, s) ∧
        (∀ q ∈ similarProcessedFor u t pop, q.2 ≤ s) ∧
        ∃ pre post, similarProcessedFor u t pop = pre ++ (p, s) :: post ∧
          ∀ q ∈ pre, q.2 < s) := by
  refine ⟨?_, ?_, ?_⟩
  · intro p s h
    rw [findDuplicate] at h
    by_cases hu : u.embedding = []
    · rw [if_pos hu] at h
      exact absurd h (by simp)
    · rw [if_neg hu] at h
      obtain ⟨hmem, _, _⟩ := sortDesc_head_spec _ _ h
      exact similarProcessedFor_mem u t pop p s hmem
  · intro p hp hg he hl ht
    exact similarProcessedFor_complete u t pop p hp hg he hl ht
  · intro hu hne
    rcases hhead : (sortDesc (similarProcessedFor u t pop)).head? with _ | m
    · exfalso
      rcases hs : sortDesc (similarProcessedFor u t pop) with _ | ⟨a, as⟩
      · have := sortDesc_length (similarProcessedFor u t pop)
        rw [hs] at this
        exact hne (List.length_eq_zero.mp this.symm)
      · rw [hs] at hhead
        exact absurd hhead (by simp)
    · obtain ⟨hmem, hbound, pre, post, hdecomp, hpre⟩ :=
        sortDesc_head_spec _ _ hhead
      refine ⟨m.1, m.2, ?_, hbound, pre, post, ?_, hpre⟩
      · rw [findDuplicate, if_neg hu, hhead]
      · rw [hdecomp]

/-- The unprocessed item of the C4 / C2 witnesses. -/
noncomputable def dupU : NewsItem := ⟨10, "unproc-item", "http://u", [1, 0]⟩

/-- The processed item of the C4 / C2 witnesses: same embedding as `dupU`,
distinct url and uniqueName. -/
noncomputable def dupP : NewsItem := ⟨11, "proc-item", "http://p", [1, 0]⟩

lemma cosine_dup_one : cosine_similarity dupU.embedding dupP.embedding = 1 := by
  show cosine_similarity [1, 0] [1, 0] = 1
  exact cosine_similarity_self_of_ne ⟨1, by simp, one_ne_zero⟩

lemma similarProcessedFor_dup (t : ℝ) (ht : t ≤ 1) :
    similarProcessedFor dupU t [dupP] = [(dupP, 1)] := by
  rw [similarProcessedFor]
  rw [if_neg (by simp [selfGuard, dupU, dupP])]
  rw [if_neg (by simp [dupP])]
  rw [if_neg (by simp [dupU, dupP])]
  rw [if_pos (by rw [cosine_dup_one]; exact ht)]
  rw [cosine_dup_one, similarProcessedFor]

/-- C4 witness: a concrete population with one valid candidate, where the
selection returns that candidate with its similarity score `1`. -/
theorem duplicate_matcher_contract_witness :
    dupU.embedding ≠ [] ∧ similarProcessedFor dupU (1/2) [dupP] ≠ [] ∧
    ∃ p s, findDuplicate dupU (1/2) [dupP] = some (p, s) ∧
      (∀ q ∈ similarProcessedFor dupU (1/2) [dupP], q.2 ≤ s) ∧
      ∃ pre post, similarProcessedFor dupU (1/2) [dupP] =
        pre ++ (p, s) :: post ∧ ∀ q ∈ pre, q.2 < s := by
  have h1 : dupU.embedding ≠ [] := by simp [dupU]
  have h2 : similarProcessedFor dupU (1/2) [dupP] ≠ [] := by
    rw [similarProcessedFor_dup (1/2) (by norm_num)]
    simp
  exact ⟨h1, h2, (duplicate_matcher_contract dupU (1/2) [dupP]).2.2 h1 h2⟩

/-- C2 counterexample: similarity exactly equal to the threshold (both `1`
here) DOES trigger a duplicate match in `check_similarity_and_update` — the
source compares with `>=`, so the claim's strict-`>` boundary semantics is
false for DuplicateMatcher. -/
theorem threshold_boundary_counterexample :
    cosine_similarity dupU.embedding dupP.embedding = 1 ∧
    findDuplicate dupU 1 [dupP] = some (dupP, 1) := by
  refine ⟨cosine_dup_one, ?_⟩
  rw [findDuplicate, if_neg (by simp [dupU])]
  rw [similarProcessedFor_dup 1 (le_refl 1)]
  rw [sortDesc, sortDesc, insertDesc]
  rfl

/-- C2 amended: similarity exactly equal to the threshold does NOT trigger a
match in CandidateGrouper (both of its scans use strict `>`), and similarity
strictly above the threshold does; but DuplicateMatcher uses `>=`, so there
similarity exactly equal to the threshold DOES trigger a match. -/
theorem threshold_boundary_amended (a e u p : NewsItem) (t : ℝ) (v : List ℤ) :
    (cosine_similarity a.embedding e.embedding = t →
      groupScanExisting a t [e] v = (none, v) ∧
      groupScanNew a t [e] v = ([], v)) ∧
    (e.id ∉ v → a.embedding ≠ [] → e.embedding ≠ [] →
      cosine_similarity a.embedding e.embedding > t →
      groupScanExisting a t [e] v = (some e, e.id :: v) ∧
      groupScanNew a t [e] v = ([e], e.id :: v)) ∧
    (u.embedding ≠ [] → ¬ selfGuard u p → p.embedding ≠ [] →
      u.embedding.length = p.embedding.length →
      cosine_similarity u.embedding p.embedding = t →
      findDuplicate u t [p] = some (p, t)) := by
  refine ⟨?_, ?_, ?_⟩
  · intro heq
    have hngt : ¬ cosine_similarity a.embedding e.embedding > t := by
      rw [heq]
      exact lt_irrefl t
    constructor
    · rw [groupScanExisting]
      by_cases h1 : e.id ∈ v
      · rw [if_pos h1, groupScanExisting]
      · rw [if_neg h1]
        by_cases h2 : a.embedding = [] ∨ e.embedding = []
        · rw [if_pos h2, groupScanExisting]
        · rw [if_neg h2, if_neg hngt, groupScanExisting]
    · rw [groupScanNew]
      by_cases h1 : e.id ∈ v
      · rw [if_pos h1, groupScanNew]
      · rw [if_neg h1]
        by_cases h2 : a.embedding = [] ∨ e.embedding = []
        · rw [if_pos h2, groupScanNew]
        · rw [if_neg h2, if_neg hngt, groupScanNew]
  · intro h1 h2 h3 hgt
    have hne : ¬ (a.embedding = [] ∨ e.embedding = []) := by
      intro hc
      rcases hc with hc | hc
      · exact h2 hc
      · exact h3 hc
    constructor
    · rw [groupScanExisting, if_neg h1, if_neg hne, if_pos hgt]
    · rw [groupScanNew, if_neg h1, if_neg hne, if_pos hgt, groupScanNew]
  · intro hu hg he hl heq
    rw [findDuplicate, if_neg hu]
    have hsp : similarProcessedFor u t [p] = [(p, t)] := by
      rw [similarProcessedFor]
      rw [if_neg hg, if_neg he, if_neg (by rw [hl]; simp)]
      rw [if_pos (le_of_eq heq.symm), heq, similarProcessedFor]
    rw [hsp, sortDesc, sortDesc, insertDesc]
    rfl

/-- C2 witness for the amended claim: at equality (similarity `1`, threshold
`1`) the grouper does not group and the duplicate matcher does match; with
threshold `1/2 <` similarity `1` the grouper does group. -/
theorem threshold_boundary_amended_witness :
    (groupScanExisting dupU 1 [dupP] [] = (none, []) ∧
      groupScanNew dupU 1 [dupP] [] = ([], [])) ∧
    (groupScanExisting dupU (1/2) [dupP] [] = (some dupP, [dupP.id]) ∧
      groupScanNew dupU (1/2) [dupP] [] = ([dupP], [dupP.id])) ∧
    findDuplicate dupU 1 [dupP] = some (dupP, 1) := by
  refine ⟨(threshold_boundary_amended dupU dupP dupU dupP 1 []).1
      cosine_dup_one,
    (threshold_boundary_amended dupU dupP dupU dupP (1/2) []).2.1
      (by simp) (by simp [dupU]) (by simp [dupP])
      (by rw [cosine_dup_one]; norm_num), ?_⟩
  have := (threshold_boundary_amended dupU dupP dupU dupP 1 []).2.2
    (by simp [dupU]) (by simp [selfGuard, dupU, dupP]) (by simp [dupP])
    (by simp [dupU, dupP]) cosine_dup_one
  exact this

/-! ## Lemmas about the merge/update tail -/

/-- C6: whenever the merge fails at any stage — the candidate list is empty,
the matched item's `NewsResults` row is missing or no longer processed, the
target `NewsArticle` cannot be resolved, its status is ARCHIVED or DELETED,
the content-regeneration collaborator raises, or the database write fails —
the reconcile operation yields the fallback outcome: `success = false` and
the unprocessed item NOT marked processed (not added to the skip list), so it
falls through to normal non-merge processing; and the item is marked
processed only when the update actually succeeded. -/
theorem merge_failure_atomic (nr : List (ℤ × Bool)) (arts : List NewsArticle)
    (regen : Option (String × String)) (updateOk : Bool) (u : NewsItem)
    (sim : List (NewsItem × ℝ)) :
    (regen = none → reconcileMerge nr arts regen updateOk u sim = mergeFallback) ∧
    (updateOk = false →
      reconcileMerge nr arts regen updateOk u sim = mergeFallback) ∧
    ((sortDesc sim).head? = none →
      reconcileMerge nr arts regen updateOk u sim = mergeFallback) ∧
    (∀ most, (sortDesc sim).head? = some most →
      (nr.filter (fun r => r.1 = most.1.id)).head? = none →
      reconcileMerge nr arts regen updateOk u sim = mergeFallback) ∧
    (∀ most row, (sortDesc sim).head? = some most →
      (nr.filter (fun r => r.1 = most.1.id)).head? = some row → row.2 = false →
      reconcileMerge nr arts regen updateOk u sim = mergeFallback) ∧
    (∀ most, (sortDesc sim).head? = some most →
      lookupArticleFor arts most.1 = none →
      reconcileMerge nr arts regen updateOk u sim = mergeFallback) ∧
    (∀ most art, (sortDesc sim).head? = some most →
      lookupArticleFor arts most.1 = some art →
      (art.status = "ARCHIVED" ∨ art.status = "DELETED") →
      reconcileMerge nr arts regen updateOk u sim = mergeFallback) ∧
    ((reconcileMerge nr arts regen updateOk u sim).markedProcessed = true →
      (reconcileMerge nr arts regen updateOk u sim).success = true ∧
      regen ≠ none ∧ updateOk = true) ∧
    mergeFallback.success = false ∧ mergeFallback.markedProcessed = false := by
  refine ⟨?_, ?_, ?_, ?_, ?_, ?_, ?_, ?_, rfl, rfl⟩
  · intro h
    subst h
    simp only [reconcileMerge.eq_def, mergeWithMost.eq_def,
      mergeWithArticle.eq_def]
    repeat' split
    all_goals simp_all [mergeFallback]
  · intro h
    subst h
    simp only [reconcileMerge.eq_def, mergeWithMost.eq_def,
      mergeWithArticle.eq_def, mergeCommit.eq_def]
    repeat' split
    all_goals simp_all [mergeFallback]
  · intro h
    rw [reconcileMerge.eq_def, h]
  · intro most hhead hrow
    simp only [reconcileMerge.eq_def, hhead]
    rw [mergeWithMost.eq_def, hrow]
  · intro most row hhead hrow hproc
    simp only [reconcileMerge.eq_def, hhead]
    rw [mergeWithMost.eq_def, hrow]
    simp [hproc]
  · intro most hhead hlook
    simp only [reconcileMerge.eq_def, hhead]
    rw [mergeWithMost.eq_def]
    split
    · rfl
    · split
      · rfl
      · rw [hlook]
  · intro most art hhead hlook hstat
    simp only [reconcileMerge.eq_def, hhead]
    rw [mergeWithMost.eq_def]
    split
    · rfl
    · split
      · rfl
      · rw [hlook]
        simp [mergeWithArticle.eq_def, hstat]
  · intro hmark
    simp only [reconcileMerge.eq_def, mergeWithMost.eq_def,
      mergeWithArticle.eq_def, mergeCommit.eq_def] at hmark ⊢
    repeat' split
    all_goals simp_all [mergeFallback]

/-- C6 witness: a raising regeneration collaborator at a concrete input
yields the fallback outcome, whose `success` and `markedProcessed` are
`false`. -/
theorem merge_failure_atomic_witness :
    reconcileMerge [] [] none false dupU [] = mergeFallback ∧
    mergeFallback.success = false ∧ mergeFallback.markedProcessed = false :=
  ⟨(merge_failure_atomic [] [] none false dupU []).1 rfl,
   (merge_failure_atomic [] [] none false dupU []).2.2.2.2.2.2.2.2⟩

lemma dedupAux_mem : ∀ (l seen : List String) (x : String),
    x ∈ dedupAux l seen ↔ x ∈ l ∧ x ∉ seen := by
  intro l
  induction l with
  | nil => intro seen x; simp [dedupAux]
  | cons a rest ih =>
    intro seen x
    rw [dedupAux]
    by_cases ha : a ∈ seen
    · rw [if_pos ha, ih]
      constructor
      · intro ⟨h1, h2⟩
        exact ⟨List.mem_cons_of_mem _ h1, h2⟩
      · intro ⟨h1, h2⟩
        rcases List.mem_cons.mp h1 with he | hm
        · subst he
          exact absurd ha h2
        · exact ⟨hm, h2⟩
    · rw [if_neg ha]
      constructor
      · intro h
        rcases List.mem_cons.mp h with he | hm
        · subst he
          exact ⟨List.mem_cons_self _ _, ha⟩
        · obtain ⟨h1, h2⟩ := (ih (a :: seen) x).mp hm
          exact ⟨List.mem_cons_of_mem _ h1,
            fun hc => h2 (List.mem_cons_of_mem _ hc)⟩
      · intro ⟨h1, h2⟩
        rcases List.mem_cons.mp h1 with he | hm
        · subst he
          exact List.mem_cons_self _ _
        · by_cases hxa : x = a
          · subst hxa
            exact List.mem_cons_self _ _
          · exact List.mem_cons_of_mem _ ((ih (a :: seen) x).mpr
              ⟨hm, fun hc => by
                rcases List.mem_cons.mp hc with h' | h'
                · exact hxa h'
                · exact h2 h'⟩)

lemma dedupAux_nodup : ∀ (l seen : List String), (dedupAux l seen).Nodup := by
  intro l
  induction l with
  | nil => intro seen; simp [dedupAux]
  | cons a rest ih =>
    intro seen
    rw [dedupAux]
    by_cases ha : a ∈ seen
    · rw [if_pos ha]
      exact ih seen
    · rw [if_neg ha]
      refine List.nodup_cons.mpr ⟨?_, ih (a :: seen)⟩
      intro hc
      exact ((dedupAux_mem rest (a :: seen) a).mp hc).2
        (List.mem_cons_self _ _)

lemma collectSimilarUrls_shape :
    ∀ (s : List (NewsItem × ℝ)) (acc : List String),
    ∃ extra, collectSimilarUrls acc s = acc ++ extra := by
  intro s
  induction s with
  | nil => intro acc; exact ⟨[], by simp [collectSimilarUrls]⟩
  | cons q rest ih =>
    intro acc
    rw [collectSimilarUrls]
    by_cases h : q.1.url ≠ "" ∧ q.1.url ∉ acc
    · rw [if_pos h]
      obtain ⟨e, he⟩ := ih (acc ++ [q.1.url])
      exact ⟨[q.1.url] ++ e, by rw [he, List.append_assoc]⟩
    · rw [if_neg h]
      exact ih acc

lemma collectSimilarUrls_mem :
    ∀ (s : List (NewsItem × ℝ)) (acc : List String) (x : String),
    x ∈ collectSimilarUrls acc s ↔
      x ∈ acc ∨ (x ≠ "" ∧ ∃ q ∈ s, q.1.url = x) := by
  intro s
  induction s with
  | nil => intro acc x; simp [collectSimilarUrls]
  | cons q rest ih =>
    intro acc x
    rw [collectSimilarUrls]
    by_cases h : q.1.url ≠ "" ∧ q.1.url ∉ acc
    · rw [if_pos h, ih]
      simp only [List.mem_append, List.mem_singleton]
      constructor
      · intro hc
        rcases hc with (hm | he) | ⟨hne, z, hz, hu⟩
        · exact Or.inl hm
        · subst he
          exact Or.inr ⟨h.1, q, List.mem_cons_self _ _, rfl⟩
        · exact Or.inr ⟨hne, z, List.mem_cons_of_mem _ hz, hu⟩
      · intro hc
        rcases hc with hm | ⟨hne, z, hz, hu⟩
        · exact Or.inl (Or.inl hm)
        · rcases List.mem_cons.mp hz with he | hm'
          · subst he
            exact Or.inl (Or.inr hu.symm)
          · exact Or.inr ⟨hne, z, hm', hu⟩
    · rw [if_neg h, ih]
      push_neg at h
      constructor
      · intro hc
        rcases hc with hm | ⟨hne, z, hz, hu⟩
        · exact Or.inl hm
        · exact Or.inr ⟨hne, z, List.mem_cons_of_mem _ hz, hu⟩
      · intro hc
        rcases hc with hm | ⟨hne, z, hz, hu⟩
        · exact Or.inl hm
        · rcases List.mem_cons.mp hz with he | hm'
          · subst he
            exact Or.inl (hu ▸ h (hu ▸ hne))
          · exact Or.inr ⟨hne, z, hm', hu⟩

lemma intercalate_go_extends (s : String) :
    ∀ (as : List String) (acc : String),
    ∃ suffix, String.intercalate.go acc s as = acc ++ suffix := by
  intro as
  induction as with
  | nil =>
    intro acc
    exact ⟨"", by rw [String.intercalate.go]; simp⟩
  | cons a rest ih =>
    intro acc
    rw [String.intercalate.go]
    obtain ⟨suf, hsuf⟩ := ih (acc ++ s ++ a)
    exact ⟨s ++ a ++ suf, by
      rw [hsuf, String.append_assoc, String.append_assoc,
        String.append_assoc]⟩

lemma intercalate_head (s a : String) (l : List String) :
    ∃ suffix, String.intercalate s (a :: l) = a ++ suffix := by
  rw [String.intercalate]
  exact intercalate_go_extends s l a

lemma insertDesc_mem (x y : NewsItem × ℝ) :
    ∀ l : List (NewsItem × ℝ), x ∈ insertDesc y l ↔ x = y ∨ x ∈ l := by
  intro l
  induction l with
  | nil => simp [insertDesc]
  | cons z zs ih =>
    rw [insertDesc]
    by_cases h : y.2 ≥ z.2
    · rw [if_pos h]
      simp
    · rw [if_neg h]
      simp only [List.mem_cons, ih]
      tauto

lemma sortDesc_mem (x : NewsItem × ℝ) :
    ∀ l : List (NewsItem × ℝ), x ∈ sortDesc l ↔ x ∈ l := by
  intro l
  induction l with
  | nil => simp [sortDesc]
  | cons z zs ih =>
    rw [sortDesc, insertDesc_mem]
    simp only [List.mem_cons, ih]

lemma combinedSourceUrls_head (eu : String) (s : List (NewsItem × ℝ))
    (uu : String) (h : eu ≠ "") :
    ∃ tail, combinedSourceUrls eu s uu = eu :: tail := by
  obtain ⟨extra, hex⟩ := collectSimilarUrls_shape s [eu]
  rw [combinedSourceUrls, dedupKeepFirst, hex]
  have hL : ([eu] ++ extra) ++ [uu] = eu :: (extra ++ [uu]) := by simp
  rw [hL, dedupAux]
  rw [if_neg (by simp)]
  rw [List.filter_cons_of_pos (by simp [h])]
  exact ⟨(dedupAux (extra ++ [uu]) [eu]).filter (fun u => u ≠ ""), rfl⟩

lemma combinedSourceUrls_mem (eu : String) (s : List (NewsItem × ℝ))
    (uu x : String) :
    x ∈ combinedSourceUrls eu s uu ↔
      x ≠ "" ∧ (x = eu ∨ (∃ q ∈ s, q.1.url = x) ∨ x = uu) := by
  rw [combinedSourceUrls, dedupKeepFirst]
  rw [List.mem_filter]
  rw [dedupAux_mem]
  simp only [List.mem_append, List.mem_singleton, List.not_mem_nil,
    not_false_iff, and_true, collectSimilarUrls_mem, decide_eq_true_eq]
  constructor
  · intro ⟨hmem, hne⟩
    rcases hmem with (hm | ⟨hne', q, hq, hu⟩) | he
    · exact ⟨hne, Or.inl hm⟩
    · exact ⟨hne, Or.inr (Or.inl ⟨q, hq, hu⟩)⟩
    · exact ⟨hne, Or.inr (Or.inr he)⟩
  · intro ⟨hne, hmem⟩
    rcases hmem with he | ⟨q, hq, hu⟩ | he
    · exact ⟨Or.inl (Or.inl he), hne⟩
    · exact ⟨Or.inl (Or.inr ⟨hne, q, hq, hu⟩), hne⟩
    · exact ⟨Or.inr he, hne⟩

lemma combinedSourceUrls_nodup (eu : String) (s : List (NewsItem × ℝ))
    (uu : String) : (combinedSourceUrls eu s uu).Nodup := by
  rw [combinedSourceUrls, dedupKeepFirst]
  exact List.Nodup.filter _ (dedupAux_nodup _ _)

lemma reconcileMerge_success_shape (nr : List (ℤ × Bool))
    (arts : List NewsArticle) (regen : Option (String × String))
    (updateOk : Bool) (u : NewsItem) (sim : List (NewsItem × ℝ)) :
    (reconcileMerge nr arts regen updateOk u sim).success = true →
    ∃ most art, (sortDesc sim).head? = some most ∧
      lookupArticleFor arts most.1 = some art ∧
      updateOk = true ∧
      reconcileMerge nr arts regen updateOk u sim =
        mergeCommit updateOk
          (combinedSourceUrls art.sourceURL (sortDesc sim) u.url) := by
  intro h
  simp only [reconcileMerge.eq_def, mergeWithMost.eq_def,
    mergeWithArticle.eq_def, mergeCommit.eq_def] at h ⊢
  repeat' split at h
  all_goals simp_all [mergeFallback]

/-- C7: whenever the merge commit succeeds, the written `sourceURL` is the
comma-join of the combined url list: the existing article's `sourceURL`
entry first (when non-empty), the matched items' and the new item's
non-empty urls deduplicated after it — so every url present before the merge
is still present (the old `sourceURL` string is a prefix of the new one),
source urls never shrink, and the combined list holds exactly the non-empty
urls of the existing article, the matched candidates, and the new item,
without duplicates. -/
theorem merge_source_urls_monotone (nr : List (ℤ × Bool))
    (arts : List NewsArticle) (rp : String × String) (updateOk : Bool)
    (u : NewsItem) (sim : List (NewsItem × ℝ)) (most : NewsItem × ℝ)
    (art : NewsArticle)
    (hhead : (sortDesc sim).head? = some most)
    (hlook : lookupArticleFor arts most.1 = some art)
    (hsucc : (reconcileMerge nr arts (some rp) updateOk u sim).success = true) :
    (reconcileMerge nr arts (some rp) updateOk u sim).updatedSourceURL =
      some (String.intercalate ", "
        (combinedSourceUrls art.sourceURL (sortDesc sim) u.url)) ∧
    (combinedSourceUrls art.sourceURL (sortDesc sim) u.url).Nodup ∧
    (∀ x, x ∈ combinedSourceUrls art.sourceURL (sortDesc sim) u.url ↔
      x ≠ "" ∧ (x = art.sourceURL ∨ (∃ q ∈ sim, q.1.url = x) ∨ x = u.url)) ∧
    (art.sourceURL ≠ "" →
      ∃ tail, combinedSourceUrls art.sourceURL (sortDesc sim) u.url =
        art.sourceURL :: tail) ∧
    (art.sourceURL ≠ "" →
      ∃ suffix, String.intercalate ", "
        (combinedSourceUrls art.sourceURL (sortDesc sim) u.url) =
          art.sourceURL ++ suffix) := by
  obtain ⟨most2, art2, hh2, hl2, hupd, hkey⟩ :=
    reconcileMerge_success_shape nr arts (some rp) updateOk u sim hsucc
  have hm2 : most2 = most := by
    rw [hhead] at hh2
    cases hh2
    rfl
  subst hm2
  have ha2 : art2 = art := by
    rw [hlook] at hl2
    cases hl2
    rfl
  subst ha2
  refine ⟨?_, combinedSourceUrls_nodup _ _ _, ?_, ?_, ?_⟩
  · rw [hkey, mergeCommit, if_pos hupd]
  · intro x
    rw [combinedSourceUrls_mem]
    constructor
    · intro hx
      obtain ⟨hne, hm⟩ := hx
      refine ⟨hne, ?_⟩
      rcases hm with he | ⟨q, hq, hu⟩ | he
      · exact Or.inl he
      · exact Or.inr (Or.inl ⟨q, (sortDesc_mem q sim).mp hq, hu⟩)
      · exact Or.inr (Or.inr he)
    · intro hx
      obtain ⟨hne, hm⟩ := hx
      refine ⟨hne, ?_⟩
      rcases hm with he | ⟨q, hq, hu⟩ | he
      · exact Or.inl he
      · exact Or.inr (Or.inl ⟨q, (sortDesc_mem q sim).mpr hq, hu⟩)
      · exact Or.inr (Or.inr he)
  · intro h
    exact combinedSourceUrls_head _ _ _ h
  · intro h
    obtain ⟨tail, htail⟩ := combinedSourceUrls_head _ (sortDesc sim) u.url h
    rw [htail]
    exact intercalate_head ", " _ tail

/-- The existing published article of the C7 witness: status NEW, one source
url, back-reference to `dupP`'s id. -/
def artW : NewsArticle :=
  ⟨100, "NEW", "http://existing", toString (11 : ℤ), "en-body", "de-body"⟩

/-- C7 witness: a successful merge at a concrete input writes the combined
url string and keeps the existing article's `sourceURL` as its head. -/
theorem merge_source_urls_monotone_witness :
    (reconcileMerge [((11 : ℤ), true)] [artW] (some ("ne", "nd")) true dupU
      [(dupP, 1)]).updatedSourceURL =
      some (String.intercalate ", "
        (combinedSourceUrls artW.sourceURL (sortDesc [(dupP, 1)]) dupU.url)) ∧
    ∃ tail, combinedSourceUrls artW.sourceURL (sortDesc [(dupP, 1)]) dupU.url =
      artW.sourceURL :: tail := by
  have hhead : (sortDesc [(dupP, 1)]).head? = some (dupP, 1) := by
    rw [sortDesc, sortDesc, insertDesc]
    rfl
  have hfilter : [artW].filter
      (fun a => a.newsResult = toString (dupP, (1 : ℝ)).1.id) = [artW] := by
    simp [artW, dupP]
  have hlook : lookupArticleFor [artW] (dupP, (1 : ℝ)).1 = some artW := by
    rw [lookupArticleFor, hfilter]
  have hrowf : [((11 : ℤ), true)].filter
      (fun r => r.1 = (dupP, (1 : ℝ)).1.id) = [((11 : ℤ), true)] := by
    simp [dupP]
  have hsucc : (reconcileMerge [((11 : ℤ), true)] [artW] (some ("ne", "nd"))
      true dupU [(dupP, 1)]).success = true := by
    simp only [reconcileMerge.eq_def, hhead]
    rw [mergeWithMost.eq_def, hrowf]
    simp only [List.head?]
    rw [if_neg (by simp)]
    rw [hlook]
    simp only [mergeWithArticle.eq_def]
    rw [if_neg (by simp [artW])]
    simp [mergeCommit]
  have H := merge_source_urls_monotone [((11 : ℤ), true)] [artW] ("ne", "nd")
    true dupU [(dupP, 1)] (dupP, 1) artW hhead hlook hsucc
  exact ⟨H.1, H.2.2.2.1 (by simp [artW])⟩

/-! ## Lemmas about the grouping loops -/

lemma groupScanExisting_spec (a : NewsItem) (t : ℝ) :
    ∀ (l : List NewsItem) (v : List ℤ),
    groupScanExisting a t l v = (none, v) ∨
    ∃ e, e ∈ l ∧ e.id ∉ v ∧
      groupScanExisting a t l v = (some e, e.id :: v) := by
  intro l
  induction l with
  | nil => intro v; exact Or.inl rfl
  | cons e rest ih =>
    intro v
    rw [groupScanExisting]
    by_cases h1 : e.id ∈ v
    · rw [if_pos h1]
      rcases ih v with h | ⟨e', he', hv', heq⟩
      · exact Or.inl h
      · exact Or.inr ⟨e', List.mem_cons_of_mem _ he', hv', heq⟩
    · rw [if_neg h1]
      by_cases h2 : a.embedding = [] ∨ e.embedding = []
      · rw [if_pos h2]
        rcases ih v with h | ⟨e', he', hv', heq⟩
        · exact Or.inl h
        · exact Or.inr ⟨e', List.mem_cons_of_mem _ he', hv', heq⟩
      · rw [if_neg h2]
        by_cases h3 : cosine_similarity a.embedding e.embedding > t
        · rw [if_pos h3]
          exact Or.inr ⟨e, List.mem_cons_self _ _, h1, rfl⟩
        · rw [if_neg h3]
          rcases ih v with h | ⟨e', he', hv', heq⟩
          · exact Or.inl h
          · exact Or.inr ⟨e', List.mem_cons_of_mem _ he', hv', heq⟩

lemma groupScanNew_spec (a : NewsItem) (t : ℝ) :
    ∀ (l : List NewsItem) (v : List ℤ),
    (∀ x ∈ (groupScanNew a t l v).1, x ∈ l) ∧
    (∀ x ∈ (groupScanNew a t l v).1, x.id ∉ v) ∧
    (∀ j, j ∈ (groupScanNew a t l v).2 ↔
      (∃ x ∈ (groupScanNew a t l v).1, x.id = j) ∨ j ∈ v) ∧
    ((groupScanNew a t l v).1.map NewsItem.id).Nodup := by
  intro l
  induction l with
  | nil =>
    intro v
    refine ⟨by simp [groupScanNew], by simp [groupScanNew], ?_,
      by simp [groupScanNew]⟩
    intro j
    simp [groupScanNew]
  | cons o rest ih =>
    intro v
    rw [groupScanNew]
    by_cases h1 : o.id ∈ v
    · rw [if_pos h1]
      obtain ⟨n1, n2, n3, n4⟩ := ih v
      exact ⟨fun x hx => List.mem_cons_of_mem _ (n1 x hx), n2, n3, n4⟩
    · rw [if_neg h1]
      by_cases h2 : a.embedding = [] ∨ o.embedding = []
      · rw [if_pos h2]
        obtain ⟨n1, n2, n3, n4⟩ := ih v
        exact ⟨fun x hx => List.mem_cons_of_mem _ (n1 x hx), n2, n3, n4⟩
      · rw [if_neg h2]
        by_cases h3 : cosine_similarity a.embedding o.embedding > t
        · rw [if_pos h3]
          obtain ⟨n1, n2, n3, n4⟩ := ih (o.id :: v)
          refine ⟨?_, ?_, ?_, ?_⟩
          · intro x hx
            rcases List.mem_cons.mp hx with he | hm
            · subst he
              exact List.mem_cons_self _ _
            · exact List.mem_cons_of_mem _ (n1 x hm)
          · intro x hx
            rcases List.mem_cons.mp hx with he | hm
            · subst he
              exact h1
            · intro hc
              exact n2 x hm (List.mem_cons_of_mem _ hc)
          · intro j
            rw [n3 j]
            constructor
            · intro hc
              rcases hc with ⟨x, hx, hid⟩ | hm
              · exact Or.inl ⟨x, List.mem_cons_of_mem _ hx, hid⟩
              · rcases List.mem_cons.mp hm with he | hm'
                · exact Or.inl ⟨o, List.mem_cons_self _ _, he.symm⟩
                · exact Or.inr hm'
            · intro hc
              rcases hc with ⟨x, hx, hid⟩ | hm
              · rcases List.mem_cons.mp hx with he | hm'
                · subst he
                  exact Or.inr (List.mem_cons.mpr (Or.inl hid.symm))
                · exact Or.inl ⟨x, hm', hid⟩
              · exact Or.inr (List.mem_cons_of_mem _ hm)
          · rw [List.map_cons]
            refine List.nodup_cons.mpr ⟨?_, n4⟩
            intro hc
            obtain ⟨x, hx, hid⟩ := List.mem_map.mp hc
            exact n2 x hx (hid ▸ List.mem_cons_self _ _)
        · rw [if_neg h3]
          obtain ⟨n1, n2, n3, n4⟩ := ih v
          exact ⟨fun x hx => List.mem_cons_of_mem _ (n1 x hx), n2, n3, n4⟩

lemma buildGroup_spec (ex allN : List NewsItem) (t : ℝ) (n : NewsItem)
    (v : List ℤ) (hn : n.id ∉ v) :
    (∀ j, j ∈ (buildGroup ex allN t n v).2 ↔
      (∃ x ∈ (buildGroup ex allN t n v).1, x.id = j) ∨ j ∈ v) ∧
    (∀ x ∈ (buildGroup ex allN t n v).1, x.id ∉ v) ∧
    ((buildGroup ex allN t n v).1.map NewsItem.id).Nodup ∧
    (∃ rOpt ms, (buildGroup ex allN t n v).1 = n :: (rOpt.toList ++ ms) ∧
      (∀ e, rOpt = some e → e ∈ ex) ∧ (∀ x ∈ ms, x ∈ allN)) := by
  rcases groupScanExisting_spec n t ex (n.id :: v) with hse |
    ⟨e, hee, hev, hse⟩
  · obtain ⟨n1, n2, n3, n4⟩ := groupScanNew_spec n t allN (n.id :: v)
    simp only [buildGroup, hse, Option.toList_none, List.nil_append]
    refine ⟨?_, ?_, ?_, none,
      (groupScanNew n t allN (n.id :: v)).1, by simp, by simp, n1⟩
    · intro j
      rw [n3 j]
      constructor
      · intro hc
        rcases hc with ⟨x, hx, hid⟩ | hm
        · exact Or.inl ⟨x, List.mem_cons_of_mem _ hx, hid⟩
        · rcases List.mem_cons.mp hm with he | hm'
          · exact Or.inl ⟨n, List.mem_cons_self _ _, he.symm⟩
          · exact Or.inr hm'
      · intro hc
        rcases hc with ⟨x, hx, hid⟩ | hm
        · rcases List.mem_cons.mp hx with he | hm'
          · subst he
            exact Or.inr (List.mem_cons.mpr (Or.inl hid.symm))
          · exact Or.inl ⟨x, hm', hid⟩
        · exact Or.inr (List.mem_cons_of_mem _ hm)
    · intro x hx
      rcases List.mem_cons.mp hx with he | hm
      · subst he
        exact hn
      · intro hc
        exact n2 x hm (List.mem_cons_of_mem _ hc)
    · rw [List.map_cons]
      refine List.nodup_cons.mpr ⟨?_, n4⟩
      intro hc
      obtain ⟨x, hx, hid⟩ := List.mem_map.mp hc
      exact n2 x hx (hid ▸ List.mem_cons_self _ _)
  · obtain ⟨n1, n2, n3, n4⟩ := groupScanNew_spec n t allN (e.id :: n.id :: v)
    simp only [buildGroup, hse, Option.toList_some]
    refine ⟨?_, ?_, ?_, some e,
      (groupScanNew n t allN (e.id :: n.id :: v)).1, by simp, ?_, n1⟩
    · intro j
      rw [n3 j]
      constructor
      · intro hc
        rcases hc with ⟨x, hx, hid⟩ | hm
        · exact Or.inl ⟨x, by simp [List.mem_cons_of_mem _ hx], hid⟩
        · rcases List.mem_cons.mp hm with he | hm'
          · exact Or.inl ⟨e, by simp, he.symm⟩
          · rcases List.mem_cons.mp hm' with he' | hm''
            · exact Or.inl ⟨n, by simp, he'.symm⟩
            · exact Or.inr hm''
      · intro hc
        rcases hc with ⟨x, hx, hid⟩ | hm
        · rcases List.mem_cons.mp hx with he' | hm'
          · subst he'
            exact Or.inr (by simp [hid.symm])
          · rcases List.mem_cons.mp hm' with he' | hm''
            · subst he'
              exact Or.inr (by simp [hid.symm])
            · exact Or.inl ⟨x, hm'', hid⟩
        · exact Or.inr (by simp [hm])
    · intro x hx
      rcases List.mem_cons.mp hx with he' | hm'
      · subst he'
        exact hn
      · rcases List.mem_cons.mp hm' with he' | hm''
        · subst he'
          intro hc
          exact hev (List.mem_cons_of_mem _ hc)
        · intro hc
          exact n2 x hm''
            (List.mem_cons_of_mem _ (List.mem_cons_of_mem _ hc))
    · simp only [List.map_append, List.map_cons, List.map_nil,
        List.singleton_append]
      refine List.nodup_cons.mpr ⟨?_, List.nodup_cons.mpr ⟨?_, n4⟩⟩
      · intro hc
        rcases List.mem_cons.mp hc with he' | hm'
        · exact hev (he' ▸ List.mem_cons_self _ _)
        · obtain ⟨x, hx, hid⟩ := List.mem_map.mp hm'
          exact n2 x hx (hid ▸ List.mem_cons.mpr
            (Or.inr (List.mem_cons_self _ _)))
      · intro hc
        obtain ⟨x, hx, hid⟩ := List.mem_map.mp hc
        exact n2 x hx (hid ▸ List.mem_cons_self _ _)
    · intro e' he'
      cases he'
      exact hee

lemma groupLoop_spec (ex allN : List NewsItem) (t : ℝ) :
    ∀ (rem : List NewsItem) (v : List ℤ),
    (∀ j, j ∈ (groupLoop ex allN t rem v).2 ↔
      (∃ x ∈ (groupLoop ex allN t rem v).1.join, x.id = j) ∨ j ∈ v) ∧
    (∀ x ∈ (groupLoop ex allN t rem v).1.join, x.id ∉ v) ∧
    ((groupLoop ex allN t rem v).1.join.map NewsItem.id).Nodup ∧
    (∀ n ∈ rem, n.id ∈ (groupLoop ex allN t rem v).2) ∧
    (∀ g ∈ (groupLoop ex allN t rem v).1, ∃ n rOpt ms,
      g = n :: (rOpt.toList ++ ms) ∧ n ∈ rem ∧
      (∀ e, rOpt = some e → e ∈ ex) ∧ (∀ x ∈ ms, x ∈ allN)) := by
  intro rem
  induction rem with
  | nil =>
    intro v
    refine ⟨?_, by simp [groupLoop], by simp [groupLoop], by simp,
      by simp [groupLoop]⟩
    intro j
    simp [groupLoop]
  | cons n rest ih =>
    intro v
    rw [groupLoop]
    by_cases h1 : n.id ∈ v
    · rw [if_pos h1]
      obtain ⟨g1, g2, g3, g4, g5⟩ := ih v
      refine ⟨g1, g2, g3, ?_, ?_⟩
      · intro m hm
        rcases List.mem_cons.mp hm with he | hmm
        · subst he
          exact (g1 m.id).mpr (Or.inr h1)
        · exact g4 m hmm
      · intro g hg
        obtain ⟨m, rOpt, ms, hshape, hmem, hex, hms⟩ := g5 g hg
        exact ⟨m, rOpt, ms, hshape, List.mem_cons_of_mem _ hmem, hex, hms⟩
    · rw [if_neg h1]
      obtain ⟨b1, b2, b3, b4⟩ := buildGroup_spec ex allN t n v h1
      obtain ⟨g1, g2, g3, g4, g5⟩ := ih (buildGroup ex allN t n v).2
      simp only [List.join_cons]
      have hvsub : ∀ j, j ∈ v → j ∈ (buildGroup ex allN t n v).2 :=
        fun j hj => (b1 j).mpr (Or.inr hj)
      have hbg_in : ∀ x ∈ (buildGroup ex allN t n v).1,
          x.id ∈ (buildGroup ex allN t n v).2 :=
        fun x hx => (b1 x.id).mpr (Or.inl ⟨x, hx, rfl⟩)
      refine ⟨?_, ?_, ?_, ?_, ?_⟩
      · intro j
        rw [g1 j]
        constructor
        · intro hc
          rcases hc with ⟨x, hx, hid⟩ | hm
          · exact Or.inl ⟨x, List.mem_append.mpr (Or.inr hx), hid⟩
          · rcases (b1 j).mp hm with ⟨x, hx, hid⟩ | hv
            · exact Or.inl ⟨x, List.mem_append.mpr (Or.inl hx), hid⟩
            · exact Or.inr hv
        · intro hc
          rcases hc with ⟨x, hx, hid⟩ | hv
          · rcases List.mem_append.mp hx with hx' | hx'
            · exact Or.inr ((b1 j).mpr (Or.inl ⟨x, hx', hid⟩))
            · exact Or.inl ⟨x, hx', hid⟩
          · exact Or.inr (hvsub j hv)
      · intro x hx
        rcases List.mem_append.mp hx with hx' | hx'
        · exact b2 x hx'
        · intro hc
          exact g2 x hx' (hvsub x.id hc)
      · rw [List.map_append]
        refine List.Nodup.append b3 g3 ?_
        intro j hj1 hj2
        obtain ⟨x, hx, hid⟩ := List.mem_map.mp hj1
        obtain ⟨y, hy, hid'⟩ := List.mem_map.mp hj2
        exact g2 y hy (hid' ▸ hid ▸ hbg_in x hx)
      · intro m hm
        rcases List.mem_cons.mp hm with he | hmm
        · subst he
          refine (g1 m.id).mpr (Or.inr ?_)
          obtain ⟨rOpt, ms, hshape, _, _⟩ := b4
          exact hbg_in m (by rw [hshape]; exact List.mem_cons_self _ _)
        · exact g4 m hmm
      · intro g hg
        rcases List.mem_cons.mp hg with he | hmm
        · subst he
          obtain ⟨rOpt, ms, hshape, hex, hms⟩ := b4
          exact ⟨n, rOpt, ms, hshape, List.mem_cons_self _ _, hex, hms⟩
        · obtain ⟨m, rOpt, ms, hshape, hmem, hex, hms⟩ := g5 g hmm
          exact ⟨m, rOpt, ms, hshape, List.mem_cons_of_mem _ hmem, hex, hms⟩

lemma leftoverLoop_all_visited :
    ∀ (l : List NewsItem) (v : List ℤ), (∀ n ∈ l, n.id ∈ v) →
    leftoverLoop l v = ([], v) := by
  intro l
  induction l with
  | nil => intro v _; rfl
  | cons n rest ih =>
    intro v hall
    rw [leftoverLoop, if_pos (hall n (List.mem_cons_self _ _))]
    exact ih v (fun m hm => hall m (List.mem_cons_of_mem _ hm))

/-- C3: the groups returned by `group_similar_articles` contain each new
item exactly once across all groups — its id occurs exactly once in the
concatenation of the groups, and the only member carrying its id is the item
itself — for every input list of new and existing items (with the data
model's id uniqueness) and every threshold, regardless of which items have
embeddings or how similarities fall. -/
theorem grouping_partition (newItems existingItems : List NewsItem) (t : ℝ)
    (hnew : (newItems.map NewsItem.id).Nodup)
    (hdisj : ∀ e ∈ existingItems, e.id ∉ newItems.map NewsItem.id) :
    ∀ n ∈ newItems,
      ((group_similar_articles newItems existingItems t).join.map
        NewsItem.id).count n.id = 1 ∧
      ∀ x ∈ (group_similar_articles newItems existingItems t).join,
        x.id = n.id → x = n := by
  obtain ⟨g1, g2, g3, g4, g5⟩ :=
    groupLoop_spec existingItems newItems t newItems []
  have hgsa : group_similar_articles newItems existingItems t =
      (groupLoop existingItems newItems t newItems []).1 := by
    rw [group_similar_articles, leftoverLoop_all_visited _ _ g4]
    simp
  intro n hn
  constructor
  · have hmem : n.id ∈ ((groupLoop existingItems newItems t
        newItems []).1.join.map NewsItem.id) := by
      rcases (g1 n.id).mp (g4 n hn) with ⟨x, hx, hid⟩ | hv
      · exact List.mem_map.mpr ⟨x, hx, hid⟩
      · simp at hv
    rw [hgsa]
    exact List.count_eq_one_of_mem g3 hmem
  · intro x hx hid
    rw [hgsa] at hx
    obtain ⟨g, hg, hxg⟩ := List.mem_join.mp hx
    obtain ⟨m, rOpt, ms, hshape, hmem, hex, hms⟩ := g5 g hg
    subst hshape
    have hinj := List.inj_on_of_nodup_map hnew
    rcases List.mem_cons.mp hxg with he | hm2
    · subst he
      exact hinj hmem hn hid
    · rcases List.mem_append.mp hm2 with ho | hms'
      · exfalso
        rcases rOpt with _ | e
        · simp at ho
        · have hxe : x = e := by
            simpa using ho
          subst hxe
          exact hdisj x (hex x rfl)
            (hid ▸ List.mem_map.mpr ⟨n, hn, rfl⟩)
      · exact hinj (hms x hms') hn hid

/-- A new item without an embedding, used by the grouping witnesses. -/
def gN : NewsItem := ⟨30, "g-new", "http://gn", []⟩

/-- C3 witness: a singleton input is partitioned into one singleton group. -/
theorem grouping_partition_witness :
    ((group_similar_articles [gN] [] (1/2)).join.map
      NewsItem.id).count gN.id = 1 ∧
    ∀ x ∈ (group_similar_articles [gN] [] (1/2)).join,
      x.id = gN.id → x = gN :=
  grouping_partition [gN] [] (1/2) (by simp) (by simp) gN
    (List.mem_singleton_self gN)

/-- C5: no group returned by `group_similar_articles` ever contains more
than one existing item (membership measured by id, with new and existing
ids disjoint per the data model), no matter how many existing items exceed
the threshold against the group's anchor. -/
theorem grouping_single_existing (newItems existingItems : List NewsItem)
    (t : ℝ)
    (hdisj : ∀ n ∈ newItems, n.id ∉ existingItems.map NewsItem.id) :
    ∀ g ∈ group_similar_articles newItems existingItems t,
      g.countP (fun x => decide (x.id ∈ existingItems.map NewsItem.id)) ≤ 1 := by
  obtain ⟨g1, g2, g3, g4, g5⟩ :=
    groupLoop_spec existingItems newItems t newItems []
  have hgsa : group_similar_articles newItems existingItems t =
      (groupLoop existingItems newItems t newItems []).1 := by
    rw [group_similar_articles, leftoverLoop_all_visited _ _ g4]
    simp
  intro g hg
  rw [hgsa] at hg
  obtain ⟨m, rOpt, ms, hshape, hmem, hex, hms⟩ := g5 g hg
  subst hshape
  rw [List.countP_cons, List.countP_append]
  have hms0 : ms.countP
      (fun x => decide (x.id ∈ List.map NewsItem.id existingItems)) = 0 :=
    List.countP_eq_zero.mpr (fun x hx => by simp [hdisj x (hms x hx)])
  have hlen : rOpt.toList.countP
      (fun x => decide (x.id ∈ List.map NewsItem.id existingItems)) ≤
      rOpt.toList.length := List.countP_le_length _
  have hone : rOpt.toList.length ≤ 1 := by cases rOpt <;> simp
  simp only [hms0, Nat.add_zero]
  have hif : (if (fun x =>
      decide (x.id ∈ List.map NewsItem.id existingItems)) m = true
      then 1 else 0) = 0 := by
    simp [hdisj m hmem]
  rw [hif, Nat.add_zero]
  exact le_trans hlen hone

lemma gsa_single : group_similar_articles [gN] [] (1/2) = [[gN]] := by
  simp [group_similar_articles, groupLoop, buildGroup, groupScanExisting,
    groupScanNew, leftoverLoop]

/-- C5 witness: the singleton input's one group contains no existing item. -/
theorem grouping_single_existing_witness :
    [gN].countP
      (fun x => decide (x.id ∈ ([] : List NewsItem).map NewsItem.id)) ≤ 1 :=
  grouping_single_existing [gN] [] (1/2) (by simp) [gN]
    (by rw [gsa_single]; simp)
